import Mathlib

/-!
# Verification of the conversation relay and memory subsystem

Shallow embedding of the finance-research-chatbot backend:

* the stream framing loop of `ChatService.streamMessage` (buffer, split on
  newline, keep the trailing fragment, process complete lines);
* the line decoder and event accumulation of the streaming path;
* `ChatService.sendMessage`, `ChatService.streamMessage`,
  `ChatService.getThreadMessages` as state-passing functions over an explicit
  database value, with the upstream agent service modelled as an explicit
  outcome parameter;
* `MemoryService.cleanupExpiredMemories` over a list of memory records.

Text values (message contents, stream bytes) are modelled as `List Char`;
opaque JSON payloads (thinking traces, source objects, metadata) are a type
parameter `α`, and the JavaScript `JSON.parse` builtin is a parameter
`p : List Char → Option (RawData α)` returning the fields the relay reads.
-/

namespace FinanceChat

/-! ## Stream framing layer

`ChatService.streamMessage` maintains `buffer`; on each chunk it runs
`buffer += chunk`, `lines = buffer.split('\n')`, `buffer = lines.pop() || ''`
and processes every complete line. -/

/-- JavaScript `s.split('\n')`: the list of newline-separated fragments.
Never empty; `n` newlines give `n + 1` fragments (possibly empty). -/
def splitNl : List Char → List (List Char)
  | [] => [[]]
  | c :: cs =>
    if c = '\n' then [] :: splitNl cs
    else
      match splitNl cs with
      | [] => [[c]]
      | h :: t => (c :: h) :: t

/-- One step of the framing loop on a single chunk: append the chunk to the
buffer, split on newline, return the complete lines and keep the final
(possibly incomplete) fragment as the new buffer. -/
def feed (buf chunk : List Char) : List (List Char) × List Char :=
  ((splitNl (buf ++ chunk)).dropLast, (splitNl (buf ++ chunk)).getLastD [])

/-- The framing loop over a whole sequence of received chunks, starting from a
given buffer: complete lines in order, and the final buffer. -/
def feedAll : List Char → List (List Char) → List (List Char) × List Char
  | buf, [] => ([], buf)
  | buf, c :: cs =>
    let r1 := feed buf c
    let r2 := feedAll r1.2 cs
    (r1.1 ++ r2.1, r2.2)

/-- Character-level view of the framing loop: a newline closes the current
buffer into a complete line, any other character extends the buffer. -/
def charStep (st : List (List Char) × List Char) (c : Char) :
    List (List Char) × List Char :=
  if c = '\n' then (st.1 ++ [st.2], []) else (st.1, st.2 ++ [c])

/-- A buffer that holds no newline (the framing invariant for the retained
fragment). -/
def noNl (s : List Char) : Prop := '\n' ∉ s

theorem splitNl_ne_nil (s : List Char) : splitNl s ≠ [] := by
  induction s with
  | nil => simp [splitNl]
  | cons c cs ih =>
    simp only [splitNl]
    split
    · simp
    · cases h : splitNl cs <;> simp

theorem splitNl_cons_nl (cs : List Char) : splitNl ('\n' :: cs) = [] :: splitNl cs := by
  simp [splitNl]

theorem splitNl_cons_of_ne (c : Char) (cs : List Char) (hc : c ≠ '\n')
    (h : List Char) (t : List (List Char)) (hz : splitNl cs = h :: t) :
    splitNl (c :: cs) = (c :: h) :: t := by
  simp [splitNl, hz, hc]

theorem splitNl_append_noNl (b : List Char) (z : List Char) (hb : noNl b) :
    splitNl (b ++ z) = (splitNl z).modifyHead (fun h => b ++ h) := by
  induction b with
  | nil =>
    cases hz : splitNl z with
    | nil => exact absurd hz (splitNl_ne_nil z)
    | cons a t => simp [hz, List.modifyHead]
  | cons c b ih =>
    have hc : c ≠ '\n' := by
      intro h
      exact hb (h ▸ List.mem_cons_self c b)
    have hb' : noNl b := fun h => hb (List.mem_cons_of_mem c h)
    have hibz := ih hb'
    cases hz : splitNl z with
    | nil => exact absurd hz (splitNl_ne_nil z)
    | cons g gs =>
      have h1 : splitNl (b ++ z) = (b ++ g) :: gs := by
        rw [hibz, hz]
        simp [List.modifyHead]
      rw [List.cons_append, splitNl_cons_of_ne c (b ++ z) hc (b ++ g) gs h1]
      simp [List.modifyHead]

theorem splitNl_of_noNl (b : List Char) (hb : noNl b) : splitNl b = [b] := by
  have := splitNl_append_noNl b [] hb
  simpa [splitNl, List.modifyHead] using this

theorem getLastD_cons_of_ne_nil {α : Type} (a : α) (l : List α) (h : l ≠ [])
    (d : α) : (a :: l).getLastD d = l.getLastD d := by
  cases l with
  | nil => exact absurd rfl h
  | cons b t => rfl

theorem dropLast_cons_of_ne_nil {α : Type} (a : α) (l : List α) (h : l ≠ []) :
    (a :: l).dropLast = a :: l.dropLast := by
  cases l with
  | nil => exact absurd rfl h
  | cons b t => rfl

theorem foldl_charStep (s : List Char) :
    ∀ (ls : List (List Char)) (b : List Char), noNl b →
      List.foldl charStep (ls, b) s =
        (ls ++ (splitNl (b ++ s)).dropLast, (splitNl (b ++ s)).getLastD []) := by
  induction s with
  | nil =>
    intro ls b hb
    simp [splitNl_of_noNl b hb]
  | cons c cs ih =>
    intro ls b hb
    by_cases hc : c = '\n'
    · subst hc
      have hstep : charStep (ls, b) '\n' = (ls ++ [b], []) := by
        simp [charStep]
      have hns : noNl ([] : List Char) := by simp [noNl]
      have hsplit : splitNl (b ++ '\n' :: cs) = b :: splitNl cs := by
        rw [splitNl_append_noNl b ('\n' :: cs) hb]
        simp [splitNl, List.modifyHead]
      rw [List.foldl_cons, hstep, ih (ls ++ [b]) [] hns]
      rw [hsplit,
        dropLast_cons_of_ne_nil b (splitNl cs) (splitNl_ne_nil cs),
        getLastD_cons_of_ne_nil b (splitNl cs) (splitNl_ne_nil cs)]
      simp
    · have hstep : charStep (ls, b) c = (ls, b ++ [c]) := by
        simp [charStep, hc]
      have hb' : noNl (b ++ [c]) := by
        intro h
        rcases List.mem_append.mp h with h1 | h2
        · exact hb h1
        · simp at h2
          exact hc h2.symm
      rw [List.foldl_cons, hstep, ih ls (b ++ [c]) hb']
      simp

theorem feed_eq_foldl (b c : List Char) (hb : noNl b) :
    feed b c = List.foldl charStep ([], b) c := by
  rw [foldl_charStep c [] b hb]
  simp [feed]

theorem lastFrag_noNl (s : List Char) : noNl ((splitNl s).getLastD []) := by
  induction s with
  | nil => simp [splitNl, noNl]
  | cons c cs ih =>
    by_cases hc : c = '\n'
    · subst hc
      rw [splitNl_cons_nl cs,
        getLastD_cons_of_ne_nil [] (splitNl cs) (splitNl_ne_nil cs)]
      exact ih
    · cases hz : splitNl cs with
      | nil => exact absurd hz (splitNl_ne_nil cs)
      | cons h t =>
        rw [splitNl_cons_of_ne c cs hc h t hz]
        cases t with
        | nil =>
          rw [hz] at ih
          simp only [List.getLastD] at ih ⊢
          intro hmem
          rcases List.mem_cons.mp hmem with h1 | h2
          · exact hc h1.symm
          · exact ih h2
        | cons t0 ts =>
          have hne : (t0 :: ts : List (List Char)) ≠ [] := by simp
          rw [getLastD_cons_of_ne_nil (c :: h) (t0 :: ts) hne]
          rw [hz] at ih
          rw [getLastD_cons_of_ne_nil h (t0 :: ts) hne] at ih
          exact ih

theorem feedAll_eq_foldl (cs : List (List Char)) :
    ∀ b : List Char, noNl b →
      feedAll b cs = List.foldl charStep ([], b) cs.flatten := by
  induction cs with
  | nil => intro b hb; simp [feedAll]
  | cons c cs ih =>
    intro b hb
    have hbuf : noNl (feed b c).2 := lastFrag_noNl (b ++ c)
    have h1 : List.foldl charStep ([], b) (c :: cs).flatten =
        List.foldl charStep (List.foldl charStep ([], b) c) cs.flatten := by
      rw [List.flatten_cons, List.foldl_append]
    have h2 : List.foldl charStep ([], b) c = feed b c :=
      (feed_eq_foldl b c hb).symm
    have h3 : List.foldl charStep ((feed b c).1, (feed b c).2) cs.flatten =
        ((feed b c).1 ++ (List.foldl charStep ([], (feed b c).2) cs.flatten).1,
          (List.foldl charStep ([], (feed b c).2) cs.flatten).2) := by
      rw [foldl_charStep cs.flatten (feed b c).1 (feed b c).2 hbuf,
        foldl_charStep cs.flatten [] (feed b c).2 hbuf]
      simp
    rw [h1, h2]
    symm
    calc List.foldl charStep (feed b c) cs.flatten
        = List.foldl charStep ((feed b c).1, (feed b c).2) cs.flatten := rfl
      _ = ((feed b c).1 ++ (List.foldl charStep ([], (feed b c).2) cs.flatten).1,
            (List.foldl charStep ([], (feed b c).2) cs.flatten).2) := h3
      _ = ((feed b c).1 ++ (feedAll (feed b c).2 cs).1,
            (feedAll (feed b c).2 cs).2) := by
            rw [ih (feed b c).2 hbuf]
      _ = feedAll b (c :: cs) := by
            simp [feedAll]

/-! ## Line decoding and event accumulation

Each complete line is processed by `streamMessage`'s inner loop: lines not
starting with the prefix are ignored; otherwise the remainder is parsed by
the JavaScript `JSON.parse` builtin (modelled by the parameter `p`; `none`
models a parse exception, which the code catches and skips); the parsed
object's `type` field selects the switch branch. -/

/-- The fields of a parsed stream-line payload that the relay reads:
`data.type`, `data.content` (token text) and `data.data` (thinking/source
payload, an opaque JSON value of type `α`). -/
structure RawData (α : Type) where
  type : String
  content : List Char
  data : α
deriving DecidableEq

/-- A decoded upstream application event (the recognized `type` tags of the
switch in `streamMessage`). -/
inductive UEvent (α : Type) where
  | token (content : List Char)
  | thinking (data : α)
  | source (data : α)
  | complete
deriving DecidableEq

/-- A downstream `StreamingResponse` event yielded by `streamMessage`. -/
inductive SEvent (α : Type) where
  | token (content : List Char)
  | thinking (data : α)
  | source (data : α)
  | complete (messageId : Nat)
  | error (content : List Char) (errData : List Char)
deriving DecidableEq

/-- The `type` tag of a downstream event. -/
inductive SType where
  | token
  | thinking
  | source
  | complete
  | error
deriving DecidableEq

/-- Classify a downstream event by its `type` field. -/
def SEvent.stype {α : Type} : SEvent α → SType
  | .token _ => .token
  | .thinking _ => .thinking
  | .source _ => .source
  | .complete _ => .complete
  | .error _ _ => .error

/-- Decode one complete line: require the `"data: "` prefix, parse the rest
with `p` (a `JSON.parse` failure is `none`, caught and skipped by the code),
and map the recognized `type` tags; unrecognized tags produce nothing. -/
def decodeLine {α : Type} (p : List Char → Option (RawData α))
    (line : List Char) : Option (UEvent α) :=
  if ("data: ".toList).isPrefixOf line then
    match p (line.drop 6) with
    | none => none
    | some d =>
      if d.type = "token" then some (.token d.content)
      else if d.type = "thinking" then some (.thinking d.data)
      else if d.type = "source" then some (.source d.data)
      else if d.type = "complete" then some .complete
      else none
  else none

/-- The local buffers of the streaming loop: `assistantContent`,
`thinkingTrace` (`none` models the initial JavaScript `null`), `sources`. -/
structure Accum (α : Type) where
  content : List Char
  thinkingTrace : Option α
  sources : List α
deriving DecidableEq

/-- The buffers at loop entry: empty content, `null` trace, no sources. -/
def initAccum {α : Type} : Accum α := ⟨[], none, []⟩

/-- The switch body of `streamMessage` for one decoded event: accumulate into
the buffers and re-emit the event downstream (`complete` lines are advisory:
no accumulation, no emission — the code's `break`). -/
def stepEvent {α : Type} (acc : Accum α) : UEvent α → Accum α × List (SEvent α)
  | .token c => ({ acc with content := acc.content ++ c }, [SEvent.token c])
  | .thinking d => ({ acc with thinkingTrace := some d }, [SEvent.thinking d])
  | .source d => ({ acc with sources := acc.sources ++ [d] }, [SEvent.source d])
  | .complete => (acc, [])

/-- Process one complete line: decode it, and either run the switch or skip
(no prefix, parse failure, or unrecognized `type`). -/
def lineStep {α : Type} (p : List Char → Option (RawData α)) (acc : Accum α)
    (line : List Char) : Accum α × List (SEvent α) :=
  match decodeLine p line with
  | none => (acc, [])
  | some e => stepEvent acc e

/-- Process a list of complete lines in order, collecting emitted events. -/
def processLines {α : Type} (p : List Char → Option (RawData α)) :
    Accum α → List (List Char) → Accum α × List (SEvent α)
  | acc, [] => (acc, [])
  | acc, l :: ls =>
    let r1 := lineStep p acc l
    let r2 := processLines p r1.1 ls
    (r2.1, r1.2 ++ r2.2)

/-- Consume a list of already-decoded events through the switch. -/
def consumeEvents {α : Type} : Accum α → List (UEvent α) → Accum α × List (SEvent α)
  | acc, [] => (acc, [])
  | acc, e :: es =>
    let r1 := stepEvent acc e
    let r2 := consumeEvents r1.1 es
    (r2.1, r1.2 ++ r2.2)

/-- One iteration of the `for await (const chunk of stream)` loop body:
frame the chunk against the buffer, then process every complete line. -/
def chunkStep {α : Type} (p : List Char → Option (RawData α))
    (st : Accum α × List Char) (chunk : List Char) :
    (Accum α × List Char) × List (SEvent α) :=
  let fr := feed st.2 chunk
  let pr := processLines p st.1 fr.1
  ((pr.1, fr.2), pr.2)

/-- The whole streaming consumption loop over the received chunks. -/
def processChunks {α : Type} (p : List Char → Option (RawData α)) :
    (Accum α × List Char) → List (List Char) → (Accum α × List Char) × List (SEvent α)
  | st, [] => (st, [])
  | st, c :: cs =>
    let r1 := chunkStep p st c
    let r2 := processChunks p r1.1 cs
    (r2.1, r1.2 ++ r2.2)

/-- The decoded application events a list of complete lines yields. -/
def decodedEvents {α : Type} (p : List Char → Option (RawData α))
    (lines : List (List Char)) : List (UEvent α) :=
  lines.filterMap (decodeLine p)

/-- C5 (amended): Streaming framing is invariant under chunk boundaries at
character (decoded-text) boundaries — feeding the decoded chunks through the
framing loop in order yields the same complete lines, the same final buffer,
and hence the identical decoded event sequence, as feeding the entire
decoded sequence as a single chunk. -/
theorem framing_chunk_invariant {α : Type} (p : List Char → Option (RawData α))
    (chunks : List (List Char)) :
    feedAll [] chunks = feed [] chunks.flatten ∧
      decodedEvents p (feedAll [] chunks).1 =
        decodedEvents p (feed [] chunks.flatten).1 := by
  have hn : noNl ([] : List Char) := by simp [noNl]
  have h : feedAll [] chunks = feed [] chunks.flatten := by
    rw [feedAll_eq_foldl chunks [] hn, feed_eq_foldl [] chunks.flatten hn]
  exact ⟨h, by rw [h]⟩

/-! ### Byte-level framing

The transport hands the loop raw byte `Buffer`s, and the code converts each
chunk to text independently (`buffer += chunk.toString()`), with no streaming
decoder carrying partial characters across chunks.  So a chunk boundary that
falls inside a multi-byte UTF-8 character decodes its halves to U+FFFD
replacement characters, and byte-offset chunking is observable. -/

/-- The U+FFFD replacement character produced for malformed UTF-8 input. -/
def repChar : Char := Char.ofNat 0xFFFD

/-- UTF-8 decoding step on a lead byte with no sequence in progress:
ASCII decodes directly; `0xC2`–`0xDF`, `0xE0`–`0xEF`, `0xF0`–`0xF4` open a
2-, 3- or 4-byte sequence (accumulated value, continuations still needed);
any other byte is malformed and decodes to the replacement character. -/
def utf8StepFresh (b : Nat) : Option (Nat × Nat) × List Char :=
  if b < 0x80 then (none, [Char.ofNat b])
  else if 0xC2 ≤ b ∧ b ≤ 0xDF then (some (b - 0xC0, 1), [])
  else if 0xE0 ≤ b ∧ b ≤ 0xEF then (some (b - 0xE0, 2), [])
  else if 0xF0 ≤ b ∧ b ≤ 0xF4 then (some (b - 0xF0, 3), [])
  else (none, [repChar])

/-- UTF-8 decoding step: extend a sequence in progress with a continuation
byte, completing it into a character when it is the last one; a
non-continuation byte aborts the sequence to a replacement character and is
then reprocessed fresh. -/
def utf8Step (st : Option (Nat × Nat)) (b : Nat) : Option (Nat × Nat) × List Char :=
  match st with
  | none => utf8StepFresh b
  | some (acc, k) =>
    if 0x80 ≤ b ∧ b ≤ 0xBF then
      if k = 1 then (none, [Char.ofNat (acc * 64 + (b - 0x80))])
      else (some (acc * 64 + (b - 0x80), k - 1), [])
    else
      let r := utf8StepFresh b
      (r.1, repChar :: r.2)

/-- Decode a byte list, emitting one replacement character for a sequence
left incomplete at the end of the buffer. -/
def utf8DecodeLoop : Option (Nat × Nat) → List Nat → List Char
  | st, [] =>
    match st with
    | none => []
    | some _ => [repChar]
  | st, b :: bs =>
    let r := utf8Step st b
    r.2 ++ utf8DecodeLoop r.1 bs

/-- `chunk.toString()` on one received `Buffer`: UTF-8 decoding of the
chunk's bytes in isolation, truncated or stray sequence fragments becoming
U+FFFD replacement characters. -/
def utf8Decode (bytes : List Nat) : List Char := utf8DecodeLoop none bytes

/-- One framing-loop iteration at the byte level: decode the received chunk
in isolation and append the text to the buffer (`buffer += chunk.toString()`),
then split and retain the trailing fragment. -/
def feedBytes (buf : List Char) (chunk : List Nat) : List (List Char) × List Char :=
  feed buf (utf8Decode chunk)

/-- The framing loop over a sequence of received byte chunks. -/
def feedAllBytes : List Char → List (List Nat) → List (List Char) × List Char
  | buf, [] => ([], buf)
  | buf, c :: cs =>
    let r1 := feedBytes buf c
    let r2 := feedAllBytes r1.2 cs
    (r1.1 ++ r2.1, r2.2)

/-- C5 counterexample: the byte sequence of `data: â\n` (`â` = `0xC3 0xA2`)
partitioned at the byte offset inside the two-byte character.  Each half
decodes to a replacement character, so feeding the two chunks yields the
line `data: ⁇⁇` while feeding the whole sequence at once yields `data: â` —
different complete lines and a different decoded event sequence, refuting
invariance under partitions at arbitrary byte offsets. -/
theorem framing_byte_offset_cex :
    feedAllBytes [] [[0x64, 0x61, 0x74, 0x61, 0x3A, 0x20, 0xC3], [0xA2, 0x0A]] ≠
      feedAllBytes [] [[0x64, 0x61, 0x74, 0x61, 0x3A, 0x20, 0xC3, 0xA2, 0x0A]] ∧
    decodedEvents (fun s => some (⟨"token", s, ()⟩ : RawData Unit))
        (feedAllBytes [] [[0x64, 0x61, 0x74, 0x61, 0x3A, 0x20, 0xC3], [0xA2, 0x0A]]).1 ≠
      decodedEvents (fun s => some (⟨"token", s, ()⟩ : RawData Unit))
        (feedAllBytes [] [[0x64, 0x61, 0x74, 0x61, 0x3A, 0x20, 0xC3, 0xA2, 0x0A]]).1 := by
  decide

/-! ## Conversation store data model

Records as persisted by the Prisma layer.  Message ids are allocated from a
counter in the database value; `createdAt` order coincides with list order.
Each element of `Message.sources` is the opaque payload whose
`url`/`title`/`snippet`/`domain`/`metadata` fields the code copies into one
`Source` row, created atomically with the message. -/

/-- Message roles (the `USER`/`ASSISTANT`/`SYSTEM` enum). -/
inductive Role where
  | user
  | assistant
  | system
deriving DecidableEq

/-- The serialized `metadata` column of a message, by provenance:
`ofJson m` is `JSON.stringify(m || \x7b\x7d)` of a client- or agent-supplied
object; `errorMark e` is `JSON.stringify(\x7b error: true, errorMessage: e \x7d)`
written by the `sendMessage` catch branch; `streamingMark` is
`JSON.stringify(\x7b streaming: true \x7d)` written by the streaming path. -/
inductive MsgMeta (α : Type) where
  | ofJson (m : Option α)
  | errorMark (errorMessage : List Char)
  | streamingMark
deriving DecidableEq

/-- A persisted message row (with its atomically-created source payloads). -/
structure Message (α : Type) where
  id : Nat
  threadId : Nat
  role : Role
  content : List Char
  thinkingTrace : Option α
  metadata : MsgMeta α
  sources : List α
  createdAt : Nat
deriving DecidableEq

/-- A persisted thread row (the fields the relay reads and writes). -/
structure Thread where
  id : Nat
  userId : Nat
  updatedAt : Nat
deriving DecidableEq

/-- The relational state the relay operates on. -/
structure DB (α : Type) where
  threads : List Thread
  messages : List (Message α)
  nextId : Nat
deriving DecidableEq

/-- `ThreadsService.validateThreadOwnership`: a thread with this id owned by
this user exists. -/
def validateThreadOwnership {α : Type} (db : DB α) (threadId userId : Nat) : Bool :=
  db.threads.any (fun t => t.id == threadId && t.userId == userId)

/-- `prisma.thread.update(\x7b where: id, data: \x7b updatedAt: new Date() \x7d \x7d)`:
advance the thread's `updatedAt` to now. -/
def touchThread {α : Type} (db : DB α) (threadId : Nat) (now : Nat) : DB α :=
  { db with
    threads := db.threads.map
      (fun t => if t.id == threadId then { t with updatedAt := now } else t) }

/-- The user-safe apology persisted by the `sendMessage` catch branch. -/
def apologyRetry : List Char :=
  "I apologize, but I encountered an error while processing your request. Please try again.".toList

/-- The user-safe apology carried by the streaming `error` event. -/
def apologyStream : List Char :=
  "I apologize, but I encountered an error while processing your request.".toList

/-- Errors surfaced to the immediate caller: `NotFoundException('Thread not
found or access denied')` and `HttpException(..., INTERNAL_SERVER_ERROR)`. -/
inductive RelayError where
  | notFound
  | internalServerError
deriving DecidableEq

/-- Outcome of the blocking upstream call (`axios.post` to `/chat/process`):
either the agent's JSON reply, or a rejection (non-2xx, timeout, transport
error) whose `error.message` is the given text. -/
inductive AgentResult (α : Type) where
  | ok (content : List Char) (thinkingTrace : Option α) (metadata : Option α)
      (sources : List α)
  | fail (errMessage : List Char)
deriving DecidableEq

/-- The user message row `sendMessage`/`streamMessage` persist first. -/
def mkUserMessage {α : Type} (db : DB α) (threadId : Nat) (message : List Char)
    (metadata : Option α) (now : Nat) : Message α :=
  ⟨db.nextId, threadId, .user, message, none, .ofJson metadata, [], now⟩

instance {ε α : Type} [DecidableEq ε] [DecidableEq α] : DecidableEq (Except ε α) :=
  fun a b =>
    match a, b with
    | .error e1, .error e2 => decidable_of_iff (e1 = e2) (by simp)
    | .ok x, .ok y => decidable_of_iff (x = y) (by simp)
    | .error _, .ok _ => isFalse (fun h => Except.noConfusion h)
    | .ok _, .error _ => isFalse (fun h => Except.noConfusion h)

/-- Result of one `sendMessage` call: the final database, the number of
`touchThread` (thread `updatedAt`) updates performed, and either the pair of
persisted message ids or the thrown HTTP error. -/
structure SendRun (α : Type) where
  db : DB α
  touches : Nat
  result : Except RelayError (Nat × Nat)
deriving DecidableEq

/-- `ChatService.sendMessage`: validate ownership, persist the user message,
call the agent service; on success persist the assistant message with its
sources and touch the thread; on failure persist the apology message with
error-marked metadata and throw a 500. -/
def sendMessage {α : Type} (db : DB α) (userId : Nat) (message : List Char)
    (threadId : Nat) (metadata : Option α) (agent : AgentResult α) (now : Nat) :
    SendRun α :=
  if validateThreadOwnership db threadId userId then
    let userMsg := mkUserMessage db threadId message metadata now
    let db1 : DB α :=
      { db with messages := db.messages ++ [userMsg], nextId := db.nextId + 1 }
    match agent with
    | .ok c tt md srcs =>
      let aMsg : Message α := ⟨db1.nextId, threadId, .assistant, c, tt, .ofJson md, srcs, now⟩
      let db2 : DB α :=
        { db1 with messages := db1.messages ++ [aMsg], nextId := db1.nextId + 1 }
      ⟨touchThread db2 threadId now, 1, .ok (userMsg.id, aMsg.id)⟩
    | .fail e =>
      let eMsg : Message α :=
        ⟨db1.nextId, threadId, .assistant, apologyRetry, none, .errorMark e, [], now⟩
      let db2 : DB α :=
        { db1 with messages := db1.messages ++ [eMsg], nextId := db1.nextId + 1 }
      ⟨db2, 0, .error .internalServerError⟩
  else
    ⟨db, 0, .error .notFound⟩

/-- Outcome of the streaming upstream call (`axios.post` to `/chat/stream`):
`connectError e` — the request rejects before any bytes arrive;
`stream chunks interrupt` — the listed chunks arrive in order, then the
transport either closes cleanly (`interrupt = none`) or errors mid-stream
with `error.message = e` (`interrupt = some e`). -/
inductive StreamAgent where
  | connectError (errMessage : List Char)
  | stream (chunks : List (List Char)) (interrupt : Option (List Char))
deriving DecidableEq

/-- Result of one `streamMessage` call: final database, thread-touch count,
the downstream events yielded in order, and the error thrown before any
event (ownership failure), if any. -/
structure StreamRun (α : Type) where
  db : DB α
  touches : Nat
  events : List (SEvent α)
  thrown : Option RelayError
deriving DecidableEq

/-- `ChatService.streamMessage`: validate ownership (throwing a not-found
error yields no events), persist the user message and immediately emit a
`complete` event carrying it, then consume the upstream stream through the
framing loop, re-emitting each decoded event; on clean close persist the
assistant message from the accumulated buffers (`persistErr` models a thrown
`prisma.message.create` failure), touch the thread and emit a terminal
`complete`; on any caught failure emit a single terminal `error` event whose
`content` is the apology and whose `data` holds `error.message`. -/
def streamMessage {α : Type} (db : DB α) (userId : Nat) (message : List Char)
    (threadId : Nat) (metadata : Option α)
    (p : List Char → Option (RawData α)) (agent : StreamAgent)
    (persistErr : Option (List Char)) (now : Nat) : StreamRun α :=
  if validateThreadOwnership db threadId userId then
    let userMsg := mkUserMessage db threadId message metadata now
    let db1 : DB α :=
      { db with messages := db.messages ++ [userMsg], nextId := db.nextId + 1 }
    let ev0 : SEvent α := .complete userMsg.id
    match agent with
    | .connectError e => ⟨db1, 0, [ev0, .error apologyStream e], none⟩
    | .stream chunks interrupt =>
      let r := processChunks p (initAccum, []) chunks
      let acc := r.1.1
      let streamed := r.2
      match interrupt with
      | some e => ⟨db1, 0, ev0 :: streamed ++ [.error apologyStream e], none⟩
      | none =>
        match persistErr with
        | some e => ⟨db1, 0, ev0 :: streamed ++ [.error apologyStream e], none⟩
        | none =>
          let aMsg : Message α :=
            ⟨db1.nextId, threadId, .assistant, acc.content, acc.thinkingTrace,
              .streamingMark, acc.sources, now⟩
          let db2 : DB α :=
            { db1 with messages := db1.messages ++ [aMsg], nextId := db1.nextId + 1 }
          ⟨touchThread db2 threadId now, 1,
            ev0 :: streamed ++ [.complete aMsg.id], none⟩
  else
    ⟨db, 0, [], some .notFound⟩

/-- `ChatService.getThreadMessages`: validate ownership, then return the
thread's messages in `createdAt` ascending order with skip/take pagination,
and the total count. -/
def getThreadMessages {α : Type} (db : DB α) (threadId userId page limit : Nat) :
    Except RelayError (List (Message α) × Nat) :=
  if validateThreadOwnership db threadId userId then
    let msgs := db.messages.filter (fun m => m.threadId == threadId)
    .ok (((msgs.drop ((page - 1) * limit)).take limit), msgs.length)
  else
    .error .notFound

/-! ## Memory subsystem -/

/-- The closed memory type tag (`CONVERSATION`/`FACT`/`INSIGHT`/`DOCUMENT`). -/
inductive MemType where
  | conversation
  | fact
  | insight
  | document
deriving DecidableEq

/-- A persisted long-term memory row (the fields the sweep reads). -/
structure MemoryRec where
  id : Nat
  userId : Nat
  threadId : Option Nat
  type : MemType
  createdAt : Int
deriving DecidableEq

/-- The 30-day retention horizon of `cleanupExpiredMemories`, in
milliseconds (`cutoffDate.setDate(cutoffDate.getDate() - 30)`). -/
def retentionHorizonMs : Int := 30 * 24 * 60 * 60 * 1000

/-- The delete condition of the sweep's `deleteMany`: `type = CONVERSATION`
and `createdAt` strictly before the cutoff. -/
def expiredConv (cutoff : Int) (r : MemoryRec) : Bool :=
  r.type == .conversation && r.createdAt < cutoff

/-- `MemoryService.cleanupExpiredMemories`: delete every conversation-typed
record strictly older than `now` minus the 30-day horizon; return the
remaining records and the deleted-row count. -/
def cleanupExpiredMemories (records : List MemoryRec) (now : Int) :
    List MemoryRec × Nat :=
  let cutoff := now - retentionHorizonMs
  (records.filter (fun r => !expiredConv cutoff r),
    (records.filter (fun r => expiredConv cutoff r)).length)

/-! ## Lemmas about the streaming consumption loop -/

/-- Content of a `token` upstream event. -/
def uTokenContent {α : Type} : UEvent α → Option (List Char)
  | .token c => some c
  | _ => none

/-- Payload of a `thinking` upstream event. -/
def uThinkingData {α : Type} : UEvent α → Option α
  | .thinking d => some d
  | _ => none

/-- Payload of a `source` upstream event. -/
def uSourceData {α : Type} : UEvent α → Option α
  | .source d => some d
  | _ => none

/-- The last element of a list, or a default option when the list is empty
(the overwrite semantics of the `thinking` buffer). -/
def lastOr {β : Type} (l : List β) (d : Option β) : Option β :=
  match l.getLast? with
  | some x => some x
  | none => d

theorem lastOr_nil {β : Type} (d : Option β) : lastOr [] d = d := rfl

theorem lastOr_none {β : Type} (l : List β) : lastOr l none = l.getLast? := by
  unfold lastOr
  cases l.getLast? <;> rfl

theorem getLast?_cons' {β : Type} (a : β) (l : List β) :
    (a :: l).getLast? = match l.getLast? with
      | some x => some x
      | none => some a := by
  cases l with
  | nil => rfl
  | cons b t => rfl

theorem lastOr_cons {β : Type} (a : β) (l : List β) (d : Option β) :
    lastOr (a :: l) d = lastOr l (some a) := by
  unfold lastOr
  rw [getLast?_cons' a l]
  cases l.getLast? <;> rfl

theorem processLines_eq_consume {α : Type} (p : List Char → Option (RawData α))
    (ls : List (List Char)) : ∀ acc : Accum α,
      processLines p acc ls = consumeEvents acc (decodedEvents p ls) := by
  induction ls with
  | nil => intro acc; rfl
  | cons l ls ih =>
    intro acc
    simp only [processLines, decodedEvents, List.filterMap_cons]
    cases hl : decodeLine p l with
    | none =>
      simp only [lineStep, hl]
      rw [ih acc]
      simp [consumeEvents, decodedEvents]
    | some e =>
      simp only [lineStep, hl]
      rw [ih (stepEvent acc e).1]
      simp [consumeEvents, decodedEvents]

theorem processLines_append {α : Type} (p : List Char → Option (RawData α))
    (l1 : List (List Char)) : ∀ (acc : Accum α) (l2 : List (List Char)),
      processLines p acc (l1 ++ l2) =
        ((processLines p (processLines p acc l1).1 l2).1,
          (processLines p acc l1).2 ++ (processLines p (processLines p acc l1).1 l2).2) := by
  induction l1 with
  | nil => intro acc l2; simp [processLines]
  | cons l l1 ih =>
    intro acc l2
    simp only [List.cons_append, processLines, List.append_eq]
    rw [ih (lineStep p acc l).1 l2]
    simp [List.append_assoc]

theorem processChunks_eq_lines {α : Type} (p : List Char → Option (RawData α))
    (cs : List (List Char)) : ∀ (acc : Accum α) (buf : List Char),
      processChunks p (acc, buf) cs =
        (((processLines p acc (feedAll buf cs).1).1, (feedAll buf cs).2),
          (processLines p acc (feedAll buf cs).1).2) := by
  induction cs with
  | nil => intro acc buf; simp [processChunks, feedAll, processLines]
  | cons c cs ih =>
    intro acc buf
    simp only [processChunks, chunkStep, feedAll]
    rw [ih (processLines p acc (feed buf c).1).1 (feed buf c).2]
    rw [processLines_append p (feed buf c).1 acc (feedAll (feed buf c).2 cs).1]

theorem consumeEvents_spec {α : Type} (es : List (UEvent α)) : ∀ acc : Accum α,
    (consumeEvents acc es).1.content = acc.content ++ (es.filterMap uTokenContent).flatten ∧
    (consumeEvents acc es).1.sources = acc.sources ++ es.filterMap uSourceData ∧
    (consumeEvents acc es).1.thinkingTrace =
      lastOr (es.filterMap uThinkingData) acc.thinkingTrace := by
  induction es with
  | nil => intro acc; simp [consumeEvents, lastOr_nil]
  | cons e es ih =>
    intro acc
    cases e with
    | token c =>
      have := ih { acc with content := acc.content ++ c }
      simp only [consumeEvents, stepEvent, List.filterMap_cons, uTokenContent,
        uThinkingData, uSourceData] at this ⊢
      exact ⟨by rw [this.1]; simp [List.append_assoc], this.2.1, this.2.2⟩
    | thinking d =>
      have := ih { acc with thinkingTrace := some d }
      simp only [consumeEvents, stepEvent, List.filterMap_cons, uTokenContent,
        uThinkingData, uSourceData] at this ⊢
      exact ⟨this.1, this.2.1, by rw [this.2.2, lastOr_cons]⟩
    | source d =>
      have := ih { acc with sources := acc.sources ++ [d] }
      simp only [consumeEvents, stepEvent, List.filterMap_cons, uTokenContent,
        uThinkingData, uSourceData] at this ⊢
      exact ⟨this.1, by rw [this.2.1]; simp [List.append_assoc], this.2.2⟩
    | complete =>
      have := ih acc
      simp only [consumeEvents, stepEvent, List.filterMap_cons, uTokenContent,
        uThinkingData, uSourceData] at this ⊢
      exact this

theorem consumeEvents_stypes {α : Type} (es : List (UEvent α)) :
    ∀ (acc : Accum α) (ev : SEvent α), ev ∈ (consumeEvents acc es).2 →
      ev.stype = .token ∨ ev.stype = .thinking ∨ ev.stype = .source := by
  induction es with
  | nil => intro acc ev h; simp [consumeEvents] at h
  | cons e es ih =>
    intro acc ev h
    simp only [consumeEvents, List.mem_append] at h
    rcases h with h1 | h2
    · cases e <;> simp [stepEvent] at h1
      · exact Or.inl (h1 ▸ rfl)
      · exact Or.inr (Or.inl (h1 ▸ rfl))
      · exact Or.inr (Or.inr (h1 ▸ rfl))
    · exact ih _ ev h2

/-- Events emitted by the framed consumption loop are only
`token`/`thinking`/`source` re-emissions. -/
theorem processChunks_stypes {α : Type} (p : List Char → Option (RawData α))
    (cs : List (List Char)) (ev : SEvent α)
    (h : ev ∈ (processChunks p (initAccum, []) cs).2) :
    ev.stype = .token ∨ ev.stype = .thinking ∨ ev.stype = .source := by
  rw [processChunks_eq_lines p cs initAccum []] at h
  simp only at h
  rw [processLines_eq_consume p (feedAll [] cs).1 initAccum] at h
  exact consumeEvents_stypes (decodedEvents p (feedAll [] cs).1) initAccum ev h

/-! ## Claim theorems -/

/-- C9: The retention sweep deletes all and only `conversation`-typed records
strictly older than `now` minus the 30-day horizon; other records survive in
order; run twice in a row, the second run keeps everything and deletes zero
rows. -/
theorem cleanupExpiredMemories_spec (records : List MemoryRec) (now : Int) :
    (cleanupExpiredMemories records now).1.Sublist records ∧
    (∀ m : MemoryRec, m ∈ (cleanupExpiredMemories records now).1 ↔
      m ∈ records ∧ ¬(m.type = .conversation ∧ m.createdAt < now - retentionHorizonMs)) ∧
    (cleanupExpiredMemories records now).2 =
      (records.filter (fun r => expiredConv (now - retentionHorizonMs) r)).length ∧
    cleanupExpiredMemories (cleanupExpiredMemories records now).1 now =
      ((cleanupExpiredMemories records now).1, 0) := by
  refine ⟨List.filter_sublist records, ?_, rfl, ?_⟩
  · intro m
    simp only [cleanupExpiredMemories, List.mem_filter, expiredConv]
    simp only [Bool.not_eq_true', Bool.and_eq_false_iff, beq_eq_false_iff_ne,
      ne_eq, decide_eq_false_iff_not, not_lt, not_and]
    constructor
    · rintro ⟨hm, hcond⟩
      refine ⟨hm, fun hconv => ?_⟩
      rcases hcond with hne | hge
      · exact absurd hconv hne
      · exact hge
    · rintro ⟨hm, hcond⟩
      refine ⟨hm, ?_⟩
      by_cases hconv : m.type = MemType.conversation
      · exact Or.inr (hcond hconv)
      · exact Or.inl hconv
  · simp [cleanupExpiredMemories, List.filter_filter, Bool.and_self,
      Bool.and_not_self, List.filter_false]

/-- C8: A line that is unknown (no `data: ` prefix or unrecognized event
type) or malformed (payload fails to parse) is skipped: removing it from the
line sequence changes neither the accumulated buffers nor the emitted events,
so processing continues and all subsequent well-formed events are still
decoded, emitted and accumulated. -/
theorem malformed_line_skipped {α : Type} (p : List Char → Option (RawData α))
    (acc : Accum α) (xs ys : List (List Char)) (bad : List Char)
    (h : decodeLine p bad = none) :
    processLines p acc (xs ++ bad :: ys) = processLines p acc (xs ++ ys) := by
  induction xs generalizing acc with
  | nil =>
    simp only [List.nil_append, processLines, lineStep, h]
  | cons x xs ih =>
    simp only [List.cons_append, processLines, List.append_eq]
    rw [ih (lineStep p acc x).1]

/-- Witness for C8 at a concrete skipped line. -/
theorem malformed_line_skipped_witness :
    decodeLine (fun _ => (none : Option (RawData Unit))) "oops".toList = none ∧
    processLines (fun _ => (none : Option (RawData Unit))) initAccum
        (["data: a".toList] ++ "oops".toList :: ["data: b".toList]) =
      processLines (fun _ => (none : Option (RawData Unit))) initAccum
        (["data: a".toList] ++ ["data: b".toList]) :=
  ⟨rfl, malformed_line_skipped _ initAccum ["data: a".toList] ["data: b".toList]
    "oops".toList rfl⟩

/-- C3: When the caller does not own the thread, `sendMessage`,
`streamMessage` and `getThreadMessages` all fail with the not-found-shaped
access-denied error, yield no events, touch nothing and persist nothing. -/
theorem relay_access_denied {α : Type} (db : DB α) (userId threadId : Nat)
    (message : List Char) (metadata : Option α) (agent : AgentResult α)
    (p : List Char → Option (RawData α)) (sagent : StreamAgent)
    (persistErr : Option (List Char)) (now page limit : Nat)
    (h : validateThreadOwnership db threadId userId = false) :
    sendMessage db userId message threadId metadata agent now = ⟨db, 0, .error .notFound⟩ ∧
    streamMessage db userId message threadId metadata p sagent persistErr now =
      ⟨db, 0, [], some .notFound⟩ ∧
    getThreadMessages db threadId userId page limit = .error .notFound := by
  refine ⟨?_, ?_, ?_⟩ <;> simp [sendMessage, streamMessage, getThreadMessages, h]

/-- Witness for C3: user 2 does not own thread 1. -/
theorem relay_access_denied_witness :
    validateThreadOwnership (α := Unit) ⟨[⟨1, 1, 0⟩], [], 0⟩ 1 2 = false ∧
    (sendMessage (α := Unit) ⟨[⟨1, 1, 0⟩], [], 0⟩ 2 "hi".toList 1 none
        (.fail "boom".toList) 5 = ⟨⟨[⟨1, 1, 0⟩], [], 0⟩, 0, .error .notFound⟩ ∧
      streamMessage (α := Unit) ⟨[⟨1, 1, 0⟩], [], 0⟩ 2 "hi".toList 1 none
        (fun _ => none) (.connectError "boom".toList) none 5 =
        ⟨⟨[⟨1, 1, 0⟩], [], 0⟩, 0, [], some .notFound⟩ ∧
      getThreadMessages (α := Unit) ⟨[⟨1, 1, 0⟩], [], 0⟩ 1 2 1 50 = .error .notFound) :=
  ⟨by decide,
    relay_access_denied ⟨[⟨1, 1, 0⟩], [], 0⟩ 2 1 "hi".toList none
      (.fail "boom".toList) (fun _ => none) (.connectError "boom".toList) none 5 1 50
      (by decide)⟩

/-- C4: For the thread's owner, `sendMessage` persists the user message first
and it survives any upstream outcome; on upstream failure it additionally
persists an assistant message whose content is the user-safe apology and
whose metadata is the error mark, and returns a 500 to the caller. -/
theorem sendMessage_user_survives_failure {α : Type} (db : DB α)
    (userId threadId : Nat) (message : List Char) (metadata : Option α)
    (agent : AgentResult α) (now : Nat)
    (h : validateThreadOwnership db threadId userId = true) :
    (∃ rest, (sendMessage db userId message threadId metadata agent now).db.messages =
      db.messages ++ mkUserMessage db threadId message metadata now :: rest) ∧
    (∀ e, agent = .fail e →
      (sendMessage db userId message threadId metadata agent now).db.messages =
        db.messages ++ [mkUserMessage db threadId message metadata now,
          ⟨db.nextId + 1, threadId, .assistant, apologyRetry, none, .errorMark e, [], now⟩] ∧
      (sendMessage db userId message threadId metadata agent now).result =
        .error .internalServerError) := by
  cases agent with
  | ok c tt md srcs =>
    refine ⟨⟨[⟨db.nextId + 1, threadId, .assistant, c, tt, .ofJson md, srcs, now⟩], ?_⟩, ?_⟩
    · simp [sendMessage, h, touchThread]
    · intro e he
      exact absurd he (by simp)
  | fail e =>
    refine ⟨⟨[⟨db.nextId + 1, threadId, .assistant, apologyRetry, none, .errorMark e, [], now⟩], ?_⟩, ?_⟩
    · simp [sendMessage, h]
    · intro e' he
      cases he
      exact ⟨by simp [sendMessage, h], by simp [sendMessage, h]⟩

/-- Witness for C4 on a failing upstream call. -/
theorem sendMessage_user_survives_failure_witness :
    validateThreadOwnership (α := Unit) ⟨[⟨1, 1, 0⟩], [], 0⟩ 1 1 = true ∧
    ((∃ rest, (sendMessage (α := Unit) ⟨[⟨1, 1, 0⟩], [], 0⟩ 1 "hi".toList 1 none
        (.fail "boom".toList) 5).db.messages =
        [] ++ mkUserMessage (α := Unit) ⟨[⟨1, 1, 0⟩], [], 0⟩ 1 "hi".toList none 5 :: rest) ∧
      (∀ e, (.fail "boom".toList : AgentResult Unit) = .fail e →
        (sendMessage (α := Unit) ⟨[⟨1, 1, 0⟩], [], 0⟩ 1 "hi".toList 1 none
          (.fail "boom".toList) 5).db.messages =
          [] ++ [mkUserMessage (α := Unit) ⟨[⟨1, 1, 0⟩], [], 0⟩ 1 "hi".toList none 5,
            ⟨1, 1, .assistant, apologyRetry, none, .errorMark e, [], 5⟩] ∧
        (sendMessage (α := Unit) ⟨[⟨1, 1, 0⟩], [], 0⟩ 1 "hi".toList 1 none
          (.fail "boom".toList) 5).result = .error .internalServerError)) :=
  ⟨by decide,
    sendMessage_user_survives_failure ⟨[⟨1, 1, 0⟩], [], 0⟩ 1 1 "hi".toList none
      (.fail "boom".toList) 5 (by decide)⟩

/-- C1 counterexample: on an upstream failure the catch branch of
`sendMessage` persists the error message but never updates the thread's
`updatedAt`, so `touchThread` is not called exactly once on a failed turn. -/
theorem sendMessage_touch_on_failure_cex :
    ¬ ((sendMessage (α := Unit) ⟨[⟨1, 1, 0⟩], [], 0⟩ 1 "hi".toList 1 none
        (.fail "boom".toList) 5).touches = 1) := by
  decide

/-- C1 (amended): for the thread's owner, `sendMessage` persists exactly one
new user message and exactly one new assistant message whether the upstream
call succeeds or fails, and `touchThread` is called exactly once on success
but is not called on failure. -/
theorem sendMessage_turn_counts_and_touch {α : Type} (db : DB α)
    (userId threadId : Nat) (message : List Char) (metadata : Option α)
    (agent : AgentResult α) (now : Nat)
    (h : validateThreadOwnership db threadId userId = true) :
    (∃ u a, (sendMessage db userId message threadId metadata agent now).db.messages =
      db.messages ++ [u, a] ∧ u.role = .user ∧ a.role = .assistant) ∧
    (∀ c tt md srcs, agent = .ok c tt md srcs →
      (sendMessage db userId message threadId metadata agent now).touches = 1) ∧
    (∀ e, agent = .fail e →
      (sendMessage db userId message threadId metadata agent now).touches = 0) := by
  cases agent with
  | ok c tt md srcs =>
    refine ⟨⟨mkUserMessage db threadId message metadata now,
      ⟨db.nextId + 1, threadId, .assistant, c, tt, .ofJson md, srcs, now⟩, ?_, rfl, rfl⟩,
      ?_, ?_⟩
    · simp [sendMessage, h, touchThread]
    · intro _ _ _ _ _; simp [sendMessage, h]
    · intro e he; exact absurd he (by simp)
  | fail e =>
    refine ⟨⟨mkUserMessage db threadId message metadata now,
      ⟨db.nextId + 1, threadId, .assistant, apologyRetry, none, .errorMark e, [], now⟩, ?_, rfl, rfl⟩,
      ?_, ?_⟩
    · simp [sendMessage, h]
    · intro _ _ _ _ he; exact absurd he (by simp)
    · intro _ _; simp [sendMessage, h]

/-- Witness for the amended C1 on a successful upstream call. -/
theorem sendMessage_turn_counts_and_touch_witness :
    validateThreadOwnership (α := Unit) ⟨[⟨1, 1, 0⟩], [], 0⟩ 1 1 = true ∧
    ((∃ u a, (sendMessage (α := Unit) ⟨[⟨1, 1, 0⟩], [], 0⟩ 1 "hi".toList 1 none
        (.ok "ans".toList none none []) 5).db.messages = [] ++ [u, a] ∧
        u.role = .user ∧ a.role = .assistant) ∧
      (∀ c tt md srcs, (.ok "ans".toList none none [] : AgentResult Unit) = .ok c tt md srcs →
        (sendMessage (α := Unit) ⟨[⟨1, 1, 0⟩], [], 0⟩ 1 "hi".toList 1 none
          (.ok "ans".toList none none []) 5).touches = 1) ∧
      (∀ e, (.ok "ans".toList none none [] : AgentResult Unit) = .fail e →
        (sendMessage (α := Unit) ⟨[⟨1, 1, 0⟩], [], 0⟩ 1 "hi".toList 1 none
          (.ok "ans".toList none none []) 5).touches = 0)) :=
  ⟨by decide,
    sendMessage_turn_counts_and_touch ⟨[⟨1, 1, 0⟩], [], 0⟩ 1 1 "hi".toList none
      (.ok "ans".toList none none []) 5 (by decide)⟩

/-- The `content` field of a downstream event, when present (token text or
the user-facing error text). -/
def SEvent.contentField {α : Type} : SEvent α → Option (List Char)
  | .token c => some c
  | .error c _ => some c
  | _ => none

theorem streamed_not_error {α : Type} (p : List Char → Option (RawData α))
    (chunks : List (List Char)) :
    ∀ ev ∈ (processChunks p (initAccum, []) chunks).2, SEvent.stype ev ≠ .error := by
  intro ev hm
  rcases processChunks_stypes p chunks ev hm with h1 | h1 | h1 <;> rw [h1] <;> simp

theorem terminal_event_shape {α : Type} (a : SEvent α) (l : List (SEvent α))
    (x : SEvent α) (ha : a.stype ≠ .error) (hl : ∀ ev ∈ l, SEvent.stype ev ≠ .error)
    (hx : x.stype = .complete ∨ x.stype = .error) :
    (a :: l ++ [x]) ≠ [] ∧
    (∃ e, (a :: l ++ [x]).getLast? = some e ∧
      (SEvent.stype e = .complete ∨ SEvent.stype e = .error)) ∧
    (∀ ev ∈ (a :: l ++ [x]).dropLast, SEvent.stype ev ≠ .error) := by
  refine ⟨by simp, ⟨x, ?_, hx⟩, ?_⟩
  · rw [show a :: l ++ [x] = (a :: l) ++ [x] from rfl, List.getLast?_concat]
  · rw [show a :: l ++ [x] = (a :: l) ++ [x] from rfl, List.dropLast_concat]
    intro ev hev
    rcases List.mem_cons.mp hev with h1 | h2
    · exact h1 ▸ ha
    · exact hl ev h2

/-- C2: Every streaming turn (invocation of `streamMessage` by the thread's
owner) emits a nonempty event sequence whose final, turn-ending event — the
terminal event — is of type `complete` or `error`, and no event before it is
an `error`; this holds for every upstream outcome, including a connection
failure before any bytes are received. -/
theorem streamMessage_terminal_event {α : Type} (db : DB α)
    (userId threadId : Nat) (message : List Char) (metadata : Option α)
    (p : List Char → Option (RawData α)) (agent : StreamAgent)
    (persistErr : Option (List Char)) (now : Nat)
    (h : validateThreadOwnership db threadId userId = true) :
    (streamMessage db userId message threadId metadata p agent persistErr now).events ≠ [] ∧
    (∃ e, (streamMessage db userId message threadId metadata p agent persistErr now).events.getLast? =
        some e ∧ (SEvent.stype e = .complete ∨ SEvent.stype e = .error)) ∧
    (∀ ev ∈ (streamMessage db userId message threadId metadata p agent persistErr now).events.dropLast,
      SEvent.stype ev ≠ .error) := by
  cases agent with
  | connectError e =>
    have hev : (streamMessage db userId message threadId metadata p
        (.connectError e) persistErr now).events =
        SEvent.complete (mkUserMessage db threadId message metadata now).id ::
          [] ++ [SEvent.error apologyStream e] := by
      simp [streamMessage, h]
    rw [hev]
    exact terminal_event_shape _ _ _ (by simp [SEvent.stype]) (by simp)
      (Or.inr rfl)
  | stream chunks interrupt =>
    cases interrupt with
    | some e =>
      have hev : (streamMessage db userId message threadId metadata p
          (.stream chunks (some e)) persistErr now).events =
          SEvent.complete (mkUserMessage db threadId message metadata now).id ::
            (processChunks p (initAccum, []) chunks).2 ++ [SEvent.error apologyStream e] := by
        simp [streamMessage, h]
      rw [hev]
      exact terminal_event_shape _ _ _ (by simp [SEvent.stype])
        (streamed_not_error p chunks) (Or.inr rfl)
    | none =>
      cases persistErr with
      | some e =>
        have hev : (streamMessage db userId message threadId metadata p
            (.stream chunks none) (some e) now).events =
            SEvent.complete (mkUserMessage db threadId message metadata now).id ::
              (processChunks p (initAccum, []) chunks).2 ++ [SEvent.error apologyStream e] := by
          simp [streamMessage, h]
        rw [hev]
        exact terminal_event_shape _ _ _ (by simp [SEvent.stype])
          (streamed_not_error p chunks) (Or.inr rfl)
      | none =>
        have hev : (streamMessage db userId message threadId metadata p
            (.stream chunks none) none now).events =
            SEvent.complete (mkUserMessage db threadId message metadata now).id ::
              (processChunks p (initAccum, []) chunks).2 ++
                [SEvent.complete (db.nextId + 1)] := by
          simp [streamMessage, h]
        rw [hev]
        exact terminal_event_shape _ _ _ (by simp [SEvent.stype])
          (streamed_not_error p chunks) (Or.inl rfl)

/-- Witness for C2 on an upstream connection failure. -/
theorem streamMessage_terminal_event_witness :
    validateThreadOwnership (α := Unit) ⟨[⟨1, 1, 0⟩], [], 0⟩ 1 1 = true ∧
    ((streamMessage (α := Unit) ⟨[⟨1, 1, 0⟩], [], 0⟩ 1 "hi".toList 1 none
        (fun _ => none) (.connectError "down".toList) none 5).events ≠ [] ∧
      (∃ e, (streamMessage (α := Unit) ⟨[⟨1, 1, 0⟩], [], 0⟩ 1 "hi".toList 1 none
          (fun _ => none) (.connectError "down".toList) none 5).events.getLast? =
          some e ∧ (SEvent.stype e = .complete ∨ SEvent.stype e = .error)) ∧
      (∀ ev ∈ (streamMessage (α := Unit) ⟨[⟨1, 1, 0⟩], [], 0⟩ 1 "hi".toList 1 none
          (fun _ => none) (.connectError "down".toList) none 5).events.dropLast,
        SEvent.stype ev ≠ .error)) :=
  ⟨by decide,
    streamMessage_terminal_event ⟨[⟨1, 1, 0⟩], [], 0⟩ 1 1 "hi".toList none
      (fun _ => none) (.connectError "down".toList) none 5 (by decide)⟩

/-- C6: On a cleanly-closed stream, the persisted assistant message's content
is the concatenation of all `token` events' content in emission order, its
source payloads are all `source` events' payloads in emission order, and its
thinking trace is the payload of the last `thinking` event (overwrite, not
accumulation). -/
theorem streamMessage_accumulation {α : Type} (db : DB α)
    (userId threadId : Nat) (message : List Char) (metadata : Option α)
    (p : List Char → Option (RawData α)) (chunks : List (List Char)) (now : Nat)
    (h : validateThreadOwnership db threadId userId = true) :
    ∃ u a, (streamMessage db userId message threadId metadata p
        (.stream chunks none) none now).db.messages = db.messages ++ [u, a] ∧
      a.role = .assistant ∧
      a.content = ((decodedEvents p (feedAll [] chunks).1).filterMap uTokenContent).flatten ∧
      a.sources = (decodedEvents p (feedAll [] chunks).1).filterMap uSourceData ∧
      a.thinkingTrace = ((decodedEvents p (feedAll [] chunks).1).filterMap uThinkingData).getLast? := by
  have heq : (processChunks p (initAccum, []) chunks).1.1 =
      (consumeEvents initAccum (decodedEvents p (feedAll [] chunks).1)).1 := by
    rw [processChunks_eq_lines p chunks initAccum []]
    rw [processLines_eq_consume p (feedAll [] chunks).1 initAccum]
  have hacc := consumeEvents_spec (decodedEvents p (feedAll [] chunks).1) initAccum
  refine ⟨mkUserMessage db threadId message metadata now,
    ⟨db.nextId + 1, threadId, .assistant,
      (processChunks p (initAccum, []) chunks).1.1.content,
      (processChunks p (initAccum, []) chunks).1.1.thinkingTrace,
      .streamingMark, (processChunks p (initAccum, []) chunks).1.1.sources, now⟩,
    ?_, rfl, ?_, ?_, ?_⟩
  · simp [streamMessage, h, touchThread]
  · rw [heq, hacc.1]
    simp [initAccum]
  · rw [heq, hacc.2.1]
    simp [initAccum]
  · rw [heq, hacc.2.2]
    simp [initAccum, lastOr_none]

/-- Witness for C6: two token lines, one split across a chunk boundary. -/
theorem streamMessage_accumulation_witness :
    validateThreadOwnership (α := Unit) ⟨[⟨1, 1, 0⟩], [], 0⟩ 1 1 = true ∧
    (∃ u a, (streamMessage (α := Unit) ⟨[⟨1, 1, 0⟩], [], 0⟩ 1 "hi".toList 1 none
        (fun s => if s = "T".toList then some ⟨"token", "ab".toList, ()⟩ else none)
        (.stream ["data: T\nda".toList, "ta: T\n".toList] none) none 5).db.messages =
        [] ++ [u, a] ∧
      a.role = .assistant ∧
      a.content = ((decodedEvents
          (fun s => if s = "T".toList then some ⟨"token", "ab".toList, ()⟩ else none)
          (feedAll [] ["data: T\nda".toList, "ta: T\n".toList]).1).filterMap uTokenContent).flatten ∧
      a.sources = (decodedEvents
          (fun s => if s = "T".toList then some ⟨"token", "ab".toList, ()⟩ else none)
          (feedAll [] ["data: T\nda".toList, "ta: T\n".toList]).1).filterMap uSourceData ∧
      a.thinkingTrace = ((decodedEvents
          (fun s => if s = "T".toList then some ⟨"token", "ab".toList, ()⟩ else none)
          (feedAll [] ["data: T\nda".toList, "ta: T\n".toList]).1).filterMap uThinkingData).getLast?) :=
  ⟨by decide,
    streamMessage_accumulation ⟨[⟨1, 1, 0⟩], [], 0⟩ 1 1 "hi".toList none
      (fun s => if s = "T".toList then some ⟨"token", "ab".toList, ()⟩ else none)
      ["data: T\nda".toList, "ta: T\n".toList] 5 (by decide)⟩

/-- C10: When the streaming turn fails after the user message was persisted —
connection failure, mid-stream transport error, or assistant persistence
failure — no assistant message or source is persisted from the partial
buffers, the thread's `updatedAt` is not advanced, and the only event
produced from the failure point on is the single terminal `error` event: the
persisted user message is the turn's sole durable trace. -/
theorem streamMessage_failure_sole_trace {α : Type} (db : DB α)
    (userId threadId : Nat) (message : List Char) (metadata : Option α)
    (p : List Char → Option (RawData α)) (now : Nat)
    (h : validateThreadOwnership db threadId userId = true) :
    (∀ e, (streamMessage db userId message threadId metadata p
        (.connectError e) none now).db.messages =
        db.messages ++ [mkUserMessage db threadId message metadata now] ∧
      (streamMessage db userId message threadId metadata p (.connectError e) none now).touches = 0 ∧
      (streamMessage db userId message threadId metadata p (.connectError e) none now).events =
        [.complete (mkUserMessage db threadId message metadata now).id,
          .error apologyStream e]) ∧
    (∀ chunks e, (streamMessage db userId message threadId metadata p
        (.stream chunks (some e)) none now).db.messages =
        db.messages ++ [mkUserMessage db threadId message metadata now] ∧
      (streamMessage db userId message threadId metadata p (.stream chunks (some e)) none now).touches = 0 ∧
      (streamMessage db userId message threadId metadata p (.stream chunks (some e)) none now).events =
        .complete (mkUserMessage db threadId message metadata now).id ::
          (processChunks p (initAccum, []) chunks).2 ++ [.error apologyStream e]) ∧
    (∀ chunks e, (streamMessage db userId message threadId metadata p
        (.stream chunks none) (some e) now).db.messages =
        db.messages ++ [mkUserMessage db threadId message metadata now] ∧
      (streamMessage db userId message threadId metadata p (.stream chunks none) (some e) now).touches = 0 ∧
      (streamMessage db userId message threadId metadata p (.stream chunks none) (some e) now).events =
        .complete (mkUserMessage db threadId message metadata now).id ::
          (processChunks p (initAccum, []) chunks).2 ++ [.error apologyStream e]) := by
  refine ⟨?_, ?_, ?_⟩
  · intro e
    refine ⟨?_, ?_, ?_⟩ <;> simp [streamMessage, h]
  · intro chunks e
    refine ⟨?_, ?_, ?_⟩ <;> simp [streamMessage, h]
  · intro chunks e
    refine ⟨?_, ?_, ?_⟩ <;> simp [streamMessage, h]

/-- Witness for C10 on a mid-stream transport error. -/
theorem streamMessage_failure_sole_trace_witness :
    validateThreadOwnership (α := Unit) ⟨[⟨1, 1, 0⟩], [], 0⟩ 1 1 = true ∧
    (streamMessage (α := Unit) ⟨[⟨1, 1, 0⟩], [], 0⟩ 1 "hi".toList 1 none
        (fun _ => none) (.stream ["data: x\n".toList] (some "reset".toList)) none 5).db.messages =
      [] ++ [mkUserMessage (α := Unit) ⟨[⟨1, 1, 0⟩], [], 0⟩ 1 "hi".toList none 5] ∧
    (streamMessage (α := Unit) ⟨[⟨1, 1, 0⟩], [], 0⟩ 1 "hi".toList 1 none
        (fun _ => none) (.stream ["data: x\n".toList] (some "reset".toList)) none 5).touches = 0 ∧
    (streamMessage (α := Unit) ⟨[⟨1, 1, 0⟩], [], 0⟩ 1 "hi".toList 1 none
        (fun _ => none) (.stream ["data: x\n".toList] (some "reset".toList)) none 5).events =
      .complete (mkUserMessage (α := Unit) ⟨[⟨1, 1, 0⟩], [], 0⟩ 1 "hi".toList none 5).id ::
        (processChunks (fun _ => (none : Option (RawData Unit))) (initAccum, [])
          ["data: x\n".toList]).2 ++ [.error apologyStream "reset".toList] :=
  ⟨by decide,
    (streamMessage_failure_sole_trace ⟨[⟨1, 1, 0⟩], [], 0⟩ 1 1 "hi".toList none
      (fun _ => none) 5 (by decide)).2.1 ["data: x\n".toList] "reset".toList⟩

/-- C7 counterexample: two turns that differ only in the internal upstream
error detail persist different records (the error mark stores
`error.message`) and emit different client-visible events (the streaming
`error` event's data payload carries `error.message`). -/
theorem error_detail_leak_cex :
    (sendMessage (α := Unit) ⟨[⟨1, 1, 0⟩], [], 0⟩ 1 "hi".toList 1 none
        (.fail "boomA".toList) 5).db ≠
      (sendMessage (α := Unit) ⟨[⟨1, 1, 0⟩], [], 0⟩ 1 "hi".toList 1 none
        (.fail "boomB".toList) 5).db ∧
    (streamMessage (α := Unit) ⟨[⟨1, 1, 0⟩], [], 0⟩ 1 "hi".toList 1 none
        (fun _ => none) (.connectError "boomA".toList) none 5).events ≠
      (streamMessage (α := Unit) ⟨[⟨1, 1, 0⟩], [], 0⟩ 1 "hi".toList 1 none
        (fun _ => none) (.connectError "boomB".toList) none 5).events := by
  decide

/-- C7 (amended): on a failed turn, the persisted message contents, the
caller-visible HTTP result and the `content` fields of the client-visible
events are independent of the internal upstream error detail — but the
persisted assistant metadata records `error.message` in its error mark, and
the streaming terminal `error` event's data payload carries `error.message`,
so the full persisted record and the full event are not detail-free. -/
theorem error_detail_flow {α : Type} (db : DB α) (userId threadId : Nat)
    (message : List Char) (metadata : Option α)
    (p : List Char → Option (RawData α)) (now : Nat) (e1 e2 : List Char)
    (h : validateThreadOwnership db threadId userId = true) :
    (sendMessage db userId message threadId metadata (.fail e1) now).db.messages.map Message.content =
      (sendMessage db userId message threadId metadata (.fail e2) now).db.messages.map Message.content ∧
    (sendMessage db userId message threadId metadata (.fail e1) now).result =
      (sendMessage db userId message threadId metadata (.fail e2) now).result ∧
    (streamMessage db userId message threadId metadata p (.connectError e1) none now).events.map SEvent.contentField =
      (streamMessage db userId message threadId metadata p (.connectError e2) none now).events.map SEvent.contentField ∧
    (sendMessage db userId message threadId metadata (.fail e1) now).db.messages =
      db.messages ++ [mkUserMessage db threadId message metadata now,
        ⟨db.nextId + 1, threadId, .assistant, apologyRetry, none, .errorMark e1, [], now⟩] ∧
    (streamMessage db userId message threadId metadata p (.connectError e1) none now).events =
      [.complete (mkUserMessage db threadId message metadata now).id,
        .error apologyStream e1] := by
  refine ⟨?_, ?_, ?_, ?_, ?_⟩ <;>
    simp [sendMessage, streamMessage, h, SEvent.contentField]

/-- Witness for the amended C7 on two distinct error details. -/
theorem error_detail_flow_witness :
    validateThreadOwnership (α := Unit) ⟨[⟨1, 1, 0⟩], [], 0⟩ 1 1 = true ∧
    ((sendMessage (α := Unit) ⟨[⟨1, 1, 0⟩], [], 0⟩ 1 "hi".toList 1 none
        (.fail "boomA".toList) 5).db.messages.map Message.content =
      (sendMessage (α := Unit) ⟨[⟨1, 1, 0⟩], [], 0⟩ 1 "hi".toList 1 none
        (.fail "boomB".toList) 5).db.messages.map Message.content ∧
      (sendMessage (α := Unit) ⟨[⟨1, 1, 0⟩], [], 0⟩ 1 "hi".toList 1 none
        (.fail "boomA".toList) 5).result =
      (sendMessage (α := Unit) ⟨[⟨1, 1, 0⟩], [], 0⟩ 1 "hi".toList 1 none
        (.fail "boomB".toList) 5).result ∧
      (streamMessage (α := Unit) ⟨[⟨1, 1, 0⟩], [], 0⟩ 1 "hi".toList 1 none
        (fun _ => none) (.connectError "boomA".toList) none 5).events.map SEvent.contentField =
      (streamMessage (α := Unit) ⟨[⟨1, 1, 0⟩], [], 0⟩ 1 "hi".toList 1 none
        (fun _ => none) (.connectError "boomB".toList) none 5).events.map SEvent.contentField ∧
      (sendMessage (α := Unit) ⟨[⟨1, 1, 0⟩], [], 0⟩ 1 "hi".toList 1 none
        (.fail "boomA".toList) 5).db.messages =
      [] ++ [mkUserMessage (α := Unit) ⟨[⟨1, 1, 0⟩], [], 0⟩ 1 "hi".toList none 5,
        ⟨1, 1, .assistant, apologyRetry, none, .errorMark "boomA".toList, [], 5⟩] ∧
      (streamMessage (α := Unit) ⟨[⟨1, 1, 0⟩], [], 0⟩ 1 "hi".toList 1 none
        (fun _ => none) (.connectError "boomA".toList) none 5).events =
      [.complete (mkUserMessage (α := Unit) ⟨[⟨1, 1, 0⟩], [], 0⟩ 1 "hi".toList none 5).id,
        .error apologyStream "boomA".toList]) :=
  ⟨by decide,
    error_detail_flow ⟨[⟨1, 1, 0⟩], [], 0⟩ 1 1 "hi".toList none
      (fun _ => none) 5 "boomA".toList "boomB".toList (by decide)⟩

end FinanceChat
